import Mathlib

/-!
Verification of the rCore teaching-kernel core (SV39 page tables and the
cooperative task scheduler) against its natural-language specification.

The Rust sources are shallowly embedded: machine words (`usize`, `u8`) become
`Nat` with explicit `% 2^w` truncation where the width matters, physical
memory becomes an explicit function from physical page number and slot index
to raw PTE bits, and Rust panics (`assert!`, `unwrap` failures) become `none`
in an `Option`-valued result.
-/

namespace RCore

/-! ## Page-table entries (src/os/src/mm/page_table.rs, lines 10-67)

A `PageTableEntry` is a `usize`; flags live in the low 8 bits (V R W X U G A D,
so every 8-bit pattern is a defined `PTEFlags` value) and the physical page
number in bits 53..10.  `ppn.0 << 10 | flags.bits as usize` is rendered
arithmetically: the flag byte is below 2^8 < 2^10, so the bitwise or is the
addition of disjoint fields; the `% 256` records the `u8` type of
`PTEFlags.bits`. -/

/-- Embeds `PageTableEntry::new(ppn, flags)`: `ppn.0 << 10 | flags.bits as usize`. -/
def pteNew (ppn flags : Nat) : Nat := ppn * 1024 + flags % 256

/-- Embeds `PageTableEntry::empty()`: all bits zero. -/
def pteEmpty : Nat := 0

/-- Embeds `PageTableEntry::ppn()`: `bits >> 10 & ((1 << 44) - 1)`. -/
def pte_ppn (b : Nat) : Nat := b / 1024 % 2 ^ 44

/-- Embeds `PTEFlags::from_bits` on a `u8` argument.  `bitflags!` defines all
eight bits V,R,W,X,U,G,A,D, so `from_bits` fails exactly on inputs with a bit
outside the `u8` range, i.e. never on an actual `u8`. -/
def pteFlagsFromBits (b : Nat) : Option Nat := if b < 256 then some b else none

/-- Embeds `PageTableEntry::flags()`: `PTEFlags::from_bits(self.bits as u8).unwrap()`.
The `% 256` is the `as u8` cast; `none` would model the `unwrap` panic. -/
def pte_flags (b : Nat) : Option Nat := pteFlagsFromBits (b % 256)

/-- Embeds `PageTableEntry::is_valid()`: `(flags() & PTEFlags::V) != empty`,
i.e. bit 0 of the raw word. -/
def pte_is_valid (b : Nat) : Bool := b % 2 = 1

/-- Embeds `flags | PTEFlags::V` (`V` is bit 0): forces the low bit on and
keeps the rest of the flag byte. -/
def setValid (f : Nat) : Nat := 2 * (f / 2) + 1

/-! ## Page-table structure and token (src/os/src/mm/page_table.rs, lines 69-164) -/

/-- Embeds `PageTable`: the root frame's physical page number plus the list of
frame-tracker PPNs owned by the table (root and intermediate directories). -/
structure PageTable where
  root_ppn : Nat
  frames : List Nat
deriving DecidableEq

/-- Embeds `PageTable::token()`: `8usize << 60 | self.root_ppn.0` (mode
Sv39 = 8 in bits 63..60). -/
def PageTable.token (pt : PageTable) : Nat := 8 <<< 60 ||| pt.root_ppn

/-- Embeds `PageTable::from_token(satp)`: root PPN is `satp & ((1 << 44) - 1)`,
a non-owning view (`frames` empty). -/
def fromToken (satp : Nat) : PageTable := ⟨satp % 2 ^ 44, []⟩

/-- Oring `2^k` with a number below `2^k` is addition of disjoint binary fields. -/
theorem lor_two_pow_eq_add : ∀ (k x : Nat), x < 2 ^ k → 2 ^ k ||| x = 2 ^ k + x := by
  intro k
  induction k with
  | zero => intro x hx; interval_cases x; decide
  | succ k ih =>
    intro x hx
    have hd : Nat.div2 x < 2 ^ k := by
      rw [Nat.div2_val]
      have := Nat.div_add_mod x 2
      have hp : (2 : Nat) ^ (k + 1) = 2 * 2 ^ k := by ring
      omega
    have hb := Nat.bit_decomp x
    have hp : (2 : Nat) ^ (k + 1) = Nat.bit false (2 ^ k) := by
      simp [Nat.bit_val]; ring
    calc 2 ^ (k + 1) ||| x
        = Nat.bit false (2 ^ k) ||| Nat.bit (Nat.bodd x) (Nat.div2 x) := by rw [← hp, hb]
      _ = Nat.bit (false || Nat.bodd x) (2 ^ k ||| Nat.div2 x) :=
          Nat.lor_bit false (2 ^ k) (Nat.bodd x) (Nat.div2 x)
      _ = Nat.bit (Nat.bodd x) (2 ^ k + Nat.div2 x) := by rw [Bool.false_or, ih _ hd]
      _ = 2 ^ (k + 1) + x := by
          rw [Nat.bit_val]
          have h1 := Nat.bodd_add_div2 x
          have hp2 : (2 : Nat) ^ (k + 1) = 2 * 2 ^ k := by ring
          cases hbo : Nat.bodd x <;> simp [hbo] at h1 ⊢ <;> omega

/-- C9: for a root PPN below 2^44 the satp encoding is exactly
`(8 << 60) + root_ppn`: mode field (bits 63..60) is 8, the low 44 bits hold
the root PPN, and the ASID field (bits 59..44) is zero. -/
theorem token_layout (pt : PageTable) (h : pt.root_ppn < 2 ^ 44) :
    pt.token = 8 * 2 ^ 60 + pt.root_ppn ∧
    pt.token / 2 ^ 60 = 8 ∧
    pt.token % 2 ^ 44 = pt.root_ppn ∧
    pt.token / 2 ^ 44 % 2 ^ 16 = 0 := by
  have hlt : pt.root_ppn < 2 ^ 63 := lt_of_lt_of_le h (by norm_num)
  have hsh : (8 : Nat) <<< 60 = 2 ^ 63 := by decide
  have htok : pt.token = 8 * 2 ^ 60 + pt.root_ppn := by
    unfold PageTable.token
    rw [hsh, lor_two_pow_eq_add 63 pt.root_ppn hlt]
    norm_num
  refine ⟨htok, ?_, ?_, ?_⟩ <;> rw [htok] <;> omega

/-- Witness for `token_layout` at root PPN 12345. -/
theorem token_layout_witness :
    (12345 : Nat) < 2 ^ 44 ∧
    (PageTable.mk 12345 []).token = 8 * 2 ^ 60 + 12345 := by
  exact ⟨by norm_num, (token_layout ⟨12345, []⟩ (by norm_num)).1⟩

/-- C10: encode/decode round trip for page-table entries.  For every PPN below
2^44 and every 8-bit flag pattern, `new(ppn, flags)` decodes back to the same
PPN and flags, and `flags()` never fails (its `from_bits` accepts every byte,
so the `unwrap` cannot panic). -/
theorem pte_new_roundtrip (ppn flags : Nat) (hp : ppn < 2 ^ 44) (hf : flags < 256) :
    pte_ppn (pteNew ppn flags) = ppn ∧
    pte_flags (pteNew ppn flags) = some flags ∧
    ∀ b : Nat, pte_flags b ≠ none := by
  refine ⟨?_, ?_, ?_⟩
  · unfold pteNew pte_ppn
    have h1 : flags % 256 < 1024 := by omega
    have h2 : (ppn * 1024 + flags % 256) / 1024 = ppn := by omega
    rw [h2]
    omega
  · unfold pteNew pte_flags pteFlagsFromBits
    have h2 : (ppn * 1024 + flags % 256) % 256 = flags := by omega
    rw [h2]
    simp [hf]
  · intro b
    unfold pte_flags pteFlagsFromBits
    have : b % 256 < 256 := by omega
    simp [this]

/-- Witness for `pte_new_roundtrip` at PPN 7, flags 0b1010 (WX). -/
theorem pte_new_roundtrip_witness :
    pte_ppn (pteNew 7 10) = 7 ∧ pte_flags (pteNew 7 10) = some 10 := by
  have h := pte_new_roundtrip 7 10 (by norm_num) (by norm_num)
  exact ⟨h.1, h.2.1⟩

/-! ## Physical memory, frame allocator, and the three-level walk
(src/os/src/mm/page_table.rs, lines 76-147) -/

/-- Physical memory viewed as page-table storage: `mem p i` is the raw PTE
word at slot `i` of the frame with physical page number `p`
(`PhysPageNum::get_pte_array` indexing). -/
structure Machine where
  mem : Nat → Nat → Nat
  next : Nat
  deriving Inhabited

/-- Writes one PTE word: `*pte = value` at slot `i` of frame `p`. -/
def writePte (mem : Nat → Nat → Nat) (p i v : Nat) : Nat → Nat → Nat :=
  fun q j => if q = p ∧ j = i then v else mem q j

/-- Modelled from the spec: `frame_alloc` (mm/frame_allocator.rs, not under
src/) hands out the next unused physical frame; per the spec the walk links in
"a fresh zero-filled frame" and each allocation is a distinct frame, so the
allocator is a counter and the returned frame's slots read zero. -/
def frameAlloc (m : Machine) : Nat × Machine :=
  (m.next, ⟨fun q j => if q = m.next then 0 else m.mem q j, m.next + 1⟩)

/-- Modelled from the spec: `VirtPageNum::indexes` (mm/address.rs, not under
src/) decomposes an SV39 virtual page number into three 9-bit indices, most
significant first; index 0 is bits 26..18 of the VPN. -/
def vpnIndex0 (vpn : Nat) : Nat := vpn / 2 ^ 18 % 512

/-- Modelled from the spec: middle 9-bit index, bits 17..9 of the VPN. -/
def vpnIndex1 (vpn : Nat) : Nat := vpn / 2 ^ 9 % 512

/-- Modelled from the spec: least-significant 9-bit index, bits 8..0 of the VPN. -/
def vpnIndex2 (vpn : Nat) : Nat := vpn % 512

/-- Embeds `PageTable::find_pte_create` with the 3-iteration loop unrolled:
for levels 0 and 1 an invalid entry allocates a fresh frame, links it with
`V` only, and pushes it on `frames`; the result is the location (frame, slot)
of the level-2 leaf entry.  The Rust `Option` result is always `Some` here
(the loop always reaches `i == 2`), so the location is returned directly. -/
def findPteCreate (m : Machine) (pt : PageTable) (vpn : Nat) :
    Machine × PageTable × Nat × Nat :=
  let i0 := vpnIndex0 vpn
  let i1 := vpnIndex1 vpn
  let i2 := vpnIndex2 vpn
  let e0 := m.mem pt.root_ppn i0
  let step0 : Machine × PageTable × Nat :=
    if pte_is_valid e0 then (m, pt, pte_ppn e0)
    else
      let fm := frameAlloc m
      (⟨writePte fm.2.mem pt.root_ppn i0 (pteNew fm.1 1), fm.2.next⟩,
       ⟨pt.root_ppn, pt.frames ++ [fm.1]⟩, fm.1)
  let m1 := step0.1
  let pt1 := step0.2.1
  let p1 := step0.2.2
  let e1 := m1.mem p1 i1
  let step1 : Machine × PageTable × Nat :=
    if pte_is_valid e1 then (m1, pt1, pte_ppn e1)
    else
      let fm := frameAlloc m1
      (⟨writePte fm.2.mem p1 i1 (pteNew fm.1 1), fm.2.next⟩,
       ⟨pt1.root_ppn, pt1.frames ++ [fm.1]⟩, fm.1)
  (step1.1, step1.2.1, step1.2.2, i2)

/-- Embeds `PageTable::find_pte`: the read-only walk; `none` when an
intermediate directory entry is invalid.  Note the level-2 leaf slot is
returned without any validity check on the leaf itself. -/
def findPte (m : Machine) (pt : PageTable) (vpn : Nat) : Option (Nat × Nat) :=
  let e0 := m.mem pt.root_ppn (vpnIndex0 vpn)
  if pte_is_valid e0 then
    let e1 := m.mem (pte_ppn e0) (vpnIndex1 vpn)
    if pte_is_valid e1 then some (pte_ppn e1, vpnIndex2 vpn)
    else none
  else none

/-- Embeds `PageTable::map`: walk/create, `assert!(!pte.is_valid())` (modelled
as `none`, the kernel panic), then write `PageTableEntry::new(ppn, flags | V)`. -/
def PageTable.map (m : Machine) (pt : PageTable) (vpn ppn flags : Nat) :
    Option (Machine × PageTable) :=
  let r := findPteCreate m pt vpn
  if pte_is_valid (r.1.mem r.2.2.1 r.2.2.2) then none
  else some (⟨writePte r.1.mem r.2.2.1 r.2.2.2 (pteNew ppn (setValid flags)), r.1.next⟩, r.2.1)

/-- Embeds `PageTable::unmap`: `find_pte(vpn).unwrap()` (panic → `none` when
the walk fails), `assert!(pte.is_valid())` (panic → `none`), then clear the
entry to `PageTableEntry::empty()`. -/
def PageTable.unmap (m : Machine) (pt : PageTable) (vpn : Nat) : Option Machine :=
  match findPte m pt vpn with
  | none => none
  | some pi =>
    if pte_is_valid (m.mem pi.1 pi.2) then some ⟨writePte m.mem pi.1 pi.2 pteEmpty, m.next⟩
    else none

/-- Embeds `PageTable::translate`: `find_pte(vpn).map(|pte| *pte)` — returns
the raw leaf PTE word whenever the directory path exists, valid or not. -/
def PageTable.translate (m : Machine) (pt : PageTable) (vpn : Nat) : Option Nat :=
  (findPte m pt vpn).map fun pi => m.mem pi.1 pi.2

/-- The VPN's leaf entry is reachable and currently valid (the condition the
`map` assertion rejects and the `unmap` assertion requires). -/
def leafValid (m : Machine) (pt : PageTable) (vpn : Nat) : Bool :=
  match findPte m pt vpn with
  | some pi => pte_is_valid (m.mem pi.1 pi.2)
  | none => false

/-- When the read-only walk reaches the leaf, the walk-with-create takes the
same path, allocates nothing, and returns the same leaf location. -/
theorem findPteCreate_of_findPte (m : Machine) (pt : PageTable) (vpn p i : Nat)
    (h : findPte m pt vpn = some (p, i)) :
    findPteCreate m pt vpn = (m, pt, p, i) := by
  unfold findPte at h
  unfold findPteCreate
  by_cases h0 : pte_is_valid (m.mem pt.root_ppn (vpnIndex0 vpn))
  · simp only [h0, if_true] at h ⊢
    by_cases h1 : pte_is_valid (m.mem (pte_ppn (m.mem pt.root_ppn (vpnIndex0 vpn))) (vpnIndex1 vpn))
    · simp only [h1, if_true] at h ⊢
      obtain ⟨rfl, rfl⟩ := Prod.mk.injEq .. ▸ Option.some.injEq .. ▸ h
      rfl
    · simp [h1] at h
  · simp [h0] at h

/-- C7: double-mapping a mapped VPN and unmapping a not-currently-valid VPN
are both fatal.  `map` on a VPN whose leaf is already valid hits the
`assert!(!pte.is_valid())` panic (`none`), never a silent overwrite; `unmap`
on a VPN whose leaf is not valid hits either the `unwrap` panic (missing
directory) or the `assert!(pte.is_valid())` panic.  Both Rust functions return
`()`, so a panic is the only failure channel — neither condition is reported
as a recoverable error value. -/
theorem map_unmap_fatal (m : Machine) (pt : PageTable) (vpn ppn flags : Nat) :
    (leafValid m pt vpn = true → PageTable.map m pt vpn ppn flags = none) ∧
    (leafValid m pt vpn = false → PageTable.unmap m pt vpn = none) := by
  constructor
  · intro h
    unfold leafValid at h
    cases hf : findPte m pt vpn with
    | none => rw [hf] at h; exact absurd h (by simp)
    | some pi =>
      rw [hf] at h
      have h' : pte_is_valid (m.mem pi.1 pi.2) = true := h
      unfold PageTable.map
      rw [findPteCreate_of_findPte m pt vpn pi.1 pi.2 (by rw [hf])]
      simp [h']
  · intro h
    unfold leafValid at h
    unfold PageTable.unmap
    cases hf : findPte m pt vpn with
    | none => rfl
    | some pi =>
      rw [hf] at h
      have h' : pte_is_valid (m.mem pi.1 pi.2) = false := h
      simp [h']

/-- Witness for `map_unmap_fatal`: a one-page machine whose root directory is
entirely invalid, so the leaf of VPN 0 is unreachable and `unmap` panics. -/
theorem map_unmap_fatal_witness :
    PageTable.unmap ⟨fun _ _ => 0, 1⟩ ⟨0, [0]⟩ 0 = none :=
  (map_unmap_fatal ⟨fun _ _ => 0, 1⟩ ⟨0, [0]⟩ 0 0 0).2 rfl

/-! ## Helper lemmas about PTE encoding and memory writes -/

/-- Decoding the PPN of a freshly encoded entry, for in-range fields. -/
theorem pte_ppn_new (p f : Nat) (hp : p < 2 ^ 44) (hf : f < 256) :
    pte_ppn (pteNew p f) = p := by
  have h44 : (2 : Nat) ^ 44 = 17592186044416 := by norm_num
  unfold pte_ppn pteNew
  rw [h44] at *
  omega

/-- An entry encoded with an odd flag byte (V set) is valid. -/
theorem pte_isValid_new (p f : Nat) (h : f % 2 = 1) :
    pte_is_valid (pteNew p f) = true := by
  unfold pte_is_valid pteNew
  simp only [decide_eq_true_eq]
  omega

/-- Forcing V produces an odd flag byte. -/
theorem setValid_odd (f : Nat) : setValid f % 2 = 1 := by
  unfold setValid; omega

/-- Forcing V keeps the flag byte below 256. -/
theorem setValid_lt (f : Nat) (h : f < 256) : setValid f < 256 := by
  unfold setValid; omega

/-- The empty entry is invalid. -/
theorem pte_isValid_empty : pte_is_valid pteEmpty = false := by decide

/-- Reading back the slot just written. -/
theorem writePte_same (mem : Nat → Nat → Nat) (p i v : Nat) :
    writePte mem p i v p i = v := by simp [writePte]

/-- Reading a slot in a different frame is unaffected by the write. -/
theorem writePte_diff (mem : Nat → Nat → Nat) (p i v q j : Nat) (h : q ≠ p) :
    writePte mem p i v q j = mem q j := by simp [writePte, h]

/-! ## C2: map / translate / unmap round trip -/

/-- Structural soundness of the walk path for `vpn`: the root and any existing
directory nodes on this VPN's path are distinct allocated frames, and at least
two frames can still be allocated below the 2^44 PPN bound.  These facts hold
of every table actually built by `PageTable::new` plus `map` calls (frames come
from the allocator, so directories are pairwise distinct and never aliased by
the root); the predicate is decidable so that concrete tables can discharge it
by evaluation. -/
def tableWalkOk (m : Machine) (pt : PageTable) (vpn : Nat) : Bool :=
  decide (pt.root_ppn < m.next) &&
  decide (m.next + 2 ≤ 2 ^ 44) &&
  (let e0 := m.mem pt.root_ppn (vpnIndex0 vpn)
   !pte_is_valid e0 ||
     (decide (pte_ppn e0 < m.next) && decide (pte_ppn e0 ≠ pt.root_ppn) &&
      (let e1 := m.mem (pte_ppn e0) (vpnIndex1 vpn)
       !pte_is_valid e1 ||
         (decide (pte_ppn e1 < m.next) && decide (pte_ppn e1 ≠ pt.root_ppn) &&
          decide (pte_ppn e1 ≠ pte_ppn e0)))))

/-- Final phase shared by all round-trip cases: in the post-`map` machine the
walk for `vpn` goes root → `p1` → `p2` and the leaf holds the new entry; then
`translate` returns that entry, `unmap` clears it, and `translate` afterwards
returns the (present but invalid) empty entry. -/
theorem roundtrip_tail (mF : Machine) (ptF : PageTable) (vpn ppn flags p1 p2 : Nat)
    (h0 : pte_is_valid (mF.mem ptF.root_ppn (vpnIndex0 vpn)) = true)
    (h0p : pte_ppn (mF.mem ptF.root_ppn (vpnIndex0 vpn)) = p1)
    (h1 : pte_is_valid (mF.mem p1 (vpnIndex1 vpn)) = true)
    (h1p : pte_ppn (mF.mem p1 (vpnIndex1 vpn)) = p2)
    (hne1 : p2 ≠ ptF.root_ppn) (hne2 : p2 ≠ p1)
    (hleaf : mF.mem p2 (vpnIndex2 vpn) = pteNew ppn (setValid flags)) :
    PageTable.translate mF ptF vpn = some (pteNew ppn (setValid flags)) ∧
    ∃ m2, PageTable.unmap mF ptF vpn = some m2 ∧
      PageTable.translate m2 ptF vpn = some pteEmpty := by
  have hfind : findPte mF ptF vpn = some (p2, vpnIndex2 vpn) := by
    simp only [findPte]
    rw [h0p]
    simp [h0, h1, h1p]
  have hvalid : pte_is_valid (mF.mem p2 (vpnIndex2 vpn)) = true := by
    rw [hleaf]
    exact pte_isValid_new ppn (setValid flags) (setValid_odd flags)
  refine ⟨?_, ⟨⟨writePte mF.mem p2 (vpnIndex2 vpn) pteEmpty, mF.next⟩, ?_, ?_⟩⟩
  · unfold PageTable.translate
    rw [hfind]
    simp [hleaf]
  · unfold PageTable.unmap
    rw [hfind]
    simp [hvalid]
  · have hfind2 :
        findPte ⟨writePte mF.mem p2 (vpnIndex2 vpn) pteEmpty, mF.next⟩ ptF vpn =
          some (p2, vpnIndex2 vpn) := by
      simp only [findPte]
      rw [writePte_diff _ _ _ _ _ _ hne1.symm, h0p,
        writePte_diff _ _ _ _ _ _ hne2.symm]
      simp [h0, h1, h1p]
    unfold PageTable.translate
    rw [hfind2]
    simp [writePte_same]

/-- The round-trip behaviour claimed for `map`/`translate`/`unmap` (with the
two behaviours the code actually has: translate's flags carry `V` forced on,
and after `unmap` the still-reachable leaf reads back as the empty, invalid
entry rather than `none`). -/
def RoundTrip (m : Machine) (pt : PageTable) (vpn ppn flags : Nat) : Prop :=
  ∃ m1 pt1 m2,
    PageTable.map m pt vpn ppn flags = some (m1, pt1) ∧
    PageTable.translate m1 pt1 vpn = some (pteNew ppn (setValid flags)) ∧
    pte_ppn (pteNew ppn (setValid flags)) = ppn ∧
    pte_flags (pteNew ppn (setValid flags)) = some (setValid flags) ∧
    PageTable.unmap m1 pt1 vpn = some m2 ∧
    PageTable.translate m2 pt1 vpn = some pteEmpty ∧
    pte_is_valid pteEmpty = false

/-- Decoding the flag byte of a freshly encoded entry. -/
theorem pte_flags_new (p f : Nat) (hf : f < 256) : pte_flags (pteNew p f) = some f := by
  unfold pte_flags pteNew pteFlagsFromBits
  have h2 : (p * 1024 + f % 256) % 256 = f := by omega
  rw [h2]
  simp [hf]

/-- Round trip when both directory levels already exist for `vpn`. -/
theorem roundtrip_case_existing (m : Machine) (pt : PageTable) (vpn ppn flags p1 p2 : Nat)
    (hp : ppn < 2 ^ 44) (hf : flags < 256)
    (h0 : pte_is_valid (m.mem pt.root_ppn (vpnIndex0 vpn)) = true)
    (h0p : pte_ppn (m.mem pt.root_ppn (vpnIndex0 vpn)) = p1)
    (h1 : pte_is_valid (m.mem p1 (vpnIndex1 vpn)) = true)
    (h1p : pte_ppn (m.mem p1 (vpnIndex1 vpn)) = p2)
    (hne1 : p2 ≠ pt.root_ppn) (hne2 : p2 ≠ p1)
    (hL : pte_is_valid (m.mem p2 (vpnIndex2 vpn)) = false) :
    RoundTrip m pt vpn ppn flags := by
  have hfind : findPte m pt vpn = some (p2, vpnIndex2 vpn) := by
    simp only [findPte]
    rw [h0p]
    simp [h0, h1, h1p]
  have hmap : PageTable.map m pt vpn ppn flags =
      some (⟨writePte m.mem p2 (vpnIndex2 vpn) (pteNew ppn (setValid flags)), m.next⟩, pt) := by
    unfold PageTable.map
    rw [findPteCreate_of_findPte m pt vpn p2 (vpnIndex2 vpn) hfind]
    simp [hL]
  have t0 : writePte m.mem p2 (vpnIndex2 vpn) (pteNew ppn (setValid flags)) pt.root_ppn (vpnIndex0 vpn)
      = m.mem pt.root_ppn (vpnIndex0 vpn) := writePte_diff _ _ _ _ _ _ hne1.symm
  have t1 : writePte m.mem p2 (vpnIndex2 vpn) (pteNew ppn (setValid flags)) p1 (vpnIndex1 vpn)
      = m.mem p1 (vpnIndex1 vpn) := writePte_diff _ _ _ _ _ _ hne2.symm
  obtain ⟨htr, m2, hun, htr2⟩ :=
    roundtrip_tail ⟨writePte m.mem p2 (vpnIndex2 vpn) (pteNew ppn (setValid flags)), m.next⟩ pt
      vpn ppn flags p1 p2
      (by rw [show (⟨writePte m.mem p2 (vpnIndex2 vpn) (pteNew ppn (setValid flags)), m.next⟩ :
          Machine).mem pt.root_ppn (vpnIndex0 vpn) = m.mem pt.root_ppn (vpnIndex0 vpn) from t0]
          ; exact h0)
      (by rw [show (⟨writePte m.mem p2 (vpnIndex2 vpn) (pteNew ppn (setValid flags)), m.next⟩ :
          Machine).mem pt.root_ppn (vpnIndex0 vpn) = m.mem pt.root_ppn (vpnIndex0 vpn) from t0]
          ; exact h0p)
      (by rw [show (⟨writePte m.mem p2 (vpnIndex2 vpn) (pteNew ppn (setValid flags)), m.next⟩ :
          Machine).mem p1 (vpnIndex1 vpn) = m.mem p1 (vpnIndex1 vpn) from t1]
          ; exact h1)
      (by rw [show (⟨writePte m.mem p2 (vpnIndex2 vpn) (pteNew ppn (setValid flags)), m.next⟩ :
          Machine).mem p1 (vpnIndex1 vpn) = m.mem p1 (vpnIndex1 vpn) from t1]
          ; exact h1p)
      hne1 hne2 (writePte_same _ _ _ _)
  exact ⟨_, pt, m2, hmap, htr, pte_ppn_new _ _ hp (setValid_lt _ hf),
    pte_flags_new _ _ (setValid_lt _ hf), hun, htr2, pte_isValid_empty⟩

/-- Round trip when the level-0 directory exists but the level-1 directory
entry is invalid, so `map` allocates the level-2 node. -/
theorem roundtrip_case_alloc_leaf_dir (m : Machine) (pt : PageTable) (vpn ppn flags p1 : Nat)
    (hp : ppn < 2 ^ 44) (hf : flags < 256)
    (hroot : pt.root_ppn < m.next) (hbound : m.next + 2 ≤ 2 ^ 44)
    (h0 : pte_is_valid (m.mem pt.root_ppn (vpnIndex0 vpn)) = true)
    (h0p : pte_ppn (m.mem pt.root_ppn (vpnIndex0 vpn)) = p1)
    (hp1lt : p1 < m.next) (hp1ne : p1 ≠ pt.root_ppn)
    (h1 : pte_is_valid (m.mem p1 (vpnIndex1 vpn)) = false) :
    RoundTrip m pt vpn ppn flags := by
  have hcreate : findPteCreate m pt vpn =
      (⟨writePte (fun q j => if q = m.next then 0 else m.mem q j) p1 (vpnIndex1 vpn)
          (pteNew m.next 1), m.next + 1⟩,
       ⟨pt.root_ppn, pt.frames ++ [m.next]⟩, m.next, vpnIndex2 vpn) := by
    simp only [findPteCreate, frameAlloc, h0, if_true, h0p]
    simp [h1]
  have hmap : PageTable.map m pt vpn ppn flags =
      some (⟨writePte (writePte (fun q j => if q = m.next then 0 else m.mem q j) p1
          (vpnIndex1 vpn) (pteNew m.next 1)) m.next (vpnIndex2 vpn)
          (pteNew ppn (setValid flags)), m.next + 1⟩,
        ⟨pt.root_ppn, pt.frames ++ [m.next]⟩) := by
    unfold PageTable.map
    rw [hcreate]
    simp [writePte, show m.next ≠ p1 by omega, pte_is_valid]
  obtain ⟨htr, m2, hun, htr2⟩ :=
    roundtrip_tail
      ⟨writePte (writePte (fun q j => if q = m.next then 0 else m.mem q j) p1
          (vpnIndex1 vpn) (pteNew m.next 1)) m.next (vpnIndex2 vpn)
          (pteNew ppn (setValid flags)), m.next + 1⟩
      ⟨pt.root_ppn, pt.frames ++ [m.next]⟩ vpn ppn flags p1 m.next
      (by simp [writePte, show pt.root_ppn ≠ m.next by omega,
            show pt.root_ppn ≠ p1 from fun h => hp1ne h.symm]
          exact h0)
      (by simp [writePte, show pt.root_ppn ≠ m.next by omega,
            show pt.root_ppn ≠ p1 from fun h => hp1ne h.symm]
          exact h0p)
      (by simp [writePte, show p1 ≠ m.next by omega]
          exact pte_isValid_new _ _ (by norm_num))
      (by simp [writePte, show p1 ≠ m.next by omega]
          exact pte_ppn_new _ _ (by omega) (by norm_num))
      (show m.next ≠ pt.root_ppn by omega) (by omega)
      (by simp [writePte])
  exact ⟨_, _, m2, hmap, htr, pte_ppn_new _ _ hp (setValid_lt _ hf),
    pte_flags_new _ _ (setValid_lt _ hf), hun, htr2, pte_isValid_empty⟩

/-- Round trip when the level-0 directory entry is invalid, so `map`
allocates both the level-1 and level-2 nodes. -/
theorem roundtrip_case_alloc_both (m : Machine) (pt : PageTable) (vpn ppn flags : Nat)
    (hp : ppn < 2 ^ 44) (hf : flags < 256)
    (hroot : pt.root_ppn < m.next) (hbound : m.next + 2 ≤ 2 ^ 44)
    (h0 : pte_is_valid (m.mem pt.root_ppn (vpnIndex0 vpn)) = false) :
    RoundTrip m pt vpn ppn flags := by
  have hcreate : findPteCreate m pt vpn =
      (⟨writePte (fun q j => if q = m.next + 1 then 0 else
            writePte (fun q j => if q = m.next then 0 else m.mem q j) pt.root_ppn
              (vpnIndex0 vpn) (pteNew m.next 1) q j)
          m.next (vpnIndex1 vpn) (pteNew (m.next + 1) 1), m.next + 2⟩,
       ⟨pt.root_ppn, pt.frames ++ [m.next] ++ [m.next + 1]⟩, m.next + 1, vpnIndex2 vpn) := by
    simp only [findPteCreate, frameAlloc, h0]
    simp [writePte, show m.next ≠ pt.root_ppn by omega, pte_is_valid]
  have hmap : PageTable.map m pt vpn ppn flags =
      some (⟨writePte (writePte (fun q j => if q = m.next + 1 then 0 else
            writePte (fun q j => if q = m.next then 0 else m.mem q j) pt.root_ppn
              (vpnIndex0 vpn) (pteNew m.next 1) q j)
          m.next (vpnIndex1 vpn) (pteNew (m.next + 1) 1)) (m.next + 1) (vpnIndex2 vpn)
          (pteNew ppn (setValid flags)), m.next + 2⟩,
        ⟨pt.root_ppn, pt.frames ++ [m.next] ++ [m.next + 1]⟩) := by
    unfold PageTable.map
    rw [hcreate]
    simp [writePte, show m.next + 1 ≠ m.next by omega, pte_is_valid]
  obtain ⟨htr, m2, hun, htr2⟩ :=
    roundtrip_tail
      ⟨writePte (writePte (fun q j => if q = m.next + 1 then 0 else
            writePte (fun q j => if q = m.next then 0 else m.mem q j) pt.root_ppn
              (vpnIndex0 vpn) (pteNew m.next 1) q j)
          m.next (vpnIndex1 vpn) (pteNew (m.next + 1) 1)) (m.next + 1) (vpnIndex2 vpn)
          (pteNew ppn (setValid flags)), m.next + 2⟩
      ⟨pt.root_ppn, pt.frames ++ [m.next] ++ [m.next + 1]⟩ vpn ppn flags m.next (m.next + 1)
      (by simp [writePte, show pt.root_ppn ≠ m.next + 1 by omega,
            show pt.root_ppn ≠ m.next by omega]
          exact pte_isValid_new _ _ (by norm_num))
      (by simp [writePte, show pt.root_ppn ≠ m.next + 1 by omega,
            show pt.root_ppn ≠ m.next by omega]
          exact pte_ppn_new _ _ (by omega) (by norm_num))
      (by simp [writePte, show m.next ≠ m.next + 1 by omega]
          exact pte_isValid_new _ _ (by norm_num))
      (by simp [writePte, show m.next ≠ m.next + 1 by omega]
          exact pte_ppn_new _ _ (by omega) (by norm_num))
      (show m.next + 1 ≠ pt.root_ppn by omega) (by omega)
      (by simp [writePte])
  exact ⟨_, _, m2, hmap, htr, pte_ppn_new _ _ hp (setValid_lt _ hf),
    pte_flags_new _ _ (setValid_lt _ hf), hun, htr2, pte_isValid_empty⟩

/-- C2 (amended): in a well-formed table where `vpn`'s leaf is not yet valid,
`map(vpn, ppn, flags)` then `translate(vpn)` returns a PTE decoding to the same
PPN and to the given flags with `V` forced on; a subsequent `unmap(vpn)` then
`translate(vpn)` returns the empty (present-but-invalid) entry — the
not-mapped condition is signalled by the clear `V` bit, not by `translate`
returning nothing, because `find_pte` never checks the leaf's validity. -/
theorem map_translate_unmap_roundtrip (m : Machine) (pt : PageTable) (vpn ppn flags : Nat)
    (hW : tableWalkOk m pt vpn = true)
    (hL : leafValid m pt vpn = false)
    (hp : ppn < 2 ^ 44) (hf : flags < 256) :
    RoundTrip m pt vpn ppn flags := by
  have hWx := hW
  simp only [tableWalkOk, Bool.and_eq_true, Bool.or_eq_true, decide_eq_true_eq] at hWx
  obtain ⟨⟨hroot, hbound⟩, hrest⟩ := hWx
  cases hv0 : pte_is_valid (m.mem pt.root_ppn (vpnIndex0 vpn)) with
  | false => exact roundtrip_case_alloc_both m pt vpn ppn flags hp hf hroot hbound hv0
  | true =>
    rcases hrest with h | ⟨⟨hp1lt, hp1ne⟩, hrest1⟩
    · rw [hv0] at h; simp at h
    · cases hv1 : pte_is_valid
          (m.mem (pte_ppn (m.mem pt.root_ppn (vpnIndex0 vpn))) (vpnIndex1 vpn)) with
      | false =>
        exact roundtrip_case_alloc_leaf_dir m pt vpn ppn flags _ hp hf hroot hbound
          hv0 rfl hp1lt hp1ne hv1
      | true =>
        rcases hrest1 with h | ⟨⟨hp2lt, hp2ne⟩, hp2ne2⟩
        · rw [hv1] at h; simp at h
        · have hfind : findPte m pt vpn =
              some (pte_ppn (m.mem (pte_ppn (m.mem pt.root_ppn (vpnIndex0 vpn)))
                (vpnIndex1 vpn)), vpnIndex2 vpn) := by
            simp only [findPte]
            simp [hv0, hv1]
          have hLl : pte_is_valid
              (m.mem (pte_ppn (m.mem (pte_ppn (m.mem pt.root_ppn (vpnIndex0 vpn)))
                (vpnIndex1 vpn))) (vpnIndex2 vpn)) = false := by
            unfold leafValid at hL
            rw [hfind] at hL
            exact hL
          exact roundtrip_case_existing m pt vpn ppn flags _ _ hp hf
            hv0 rfl hv1 rfl hp2ne hp2ne2 hLl

/-- Witness for `map_translate_unmap_roundtrip`: a freshly created table
(root frame 0, allocator at 1) with VPN 5, PPN 7, flags R (0b10). -/
theorem map_translate_unmap_roundtrip_witness :
    tableWalkOk ⟨fun _ _ => 0, 1⟩ ⟨0, [0]⟩ 5 = true ∧
    leafValid ⟨fun _ _ => 0, 1⟩ ⟨0, [0]⟩ 5 = false ∧
    RoundTrip ⟨fun _ _ => 0, 1⟩ ⟨0, [0]⟩ 5 7 2 :=
  ⟨by decide, by decide,
    map_translate_unmap_roundtrip ⟨fun _ _ => 0, 1⟩ ⟨0, [0]⟩ 5 7 2
      (by decide) (by decide) (by norm_num) (by norm_num)⟩

/-- Counterexample to C2 as stated: on a fresh table, mapping VPN 5 with
flags R (2, no V bit), translating returns flags 3 (V forced on), not the
given flags 2; and after `unmap`, `translate` returns `some` of the empty
entry, not the "not mapped" `none` — the leaf is present but invalid. -/
theorem roundtrip_counterexample :
    ((PageTable.map ⟨fun _ _ => 0, 1⟩ ⟨0, [0]⟩ 5 7 2).bind fun r =>
      (PageTable.unmap r.1 r.2 5).bind fun m2 =>
        PageTable.translate m2 r.2 5) = some pteEmpty ∧
    pte_is_valid pteEmpty = false ∧
    ((PageTable.map ⟨fun _ _ => 0, 1⟩ ⟨0, [0]⟩ 5 7 2).bind fun r =>
      PageTable.translate r.1 r.2 5) = some (pteNew 7 3) ∧
    pte_flags (pteNew 7 3) ≠ some 2 := by
  decide

/-! ## C3: cross-address-space byte windows
(src/os/src/mm/page_table.rs, lines 167-187)

A window `(ppn, lo, hi)` stands for the Rust slice
`ppn.get_bytes_array()[lo..hi]` of the 4096-byte physical page `ppn`
(`hi = 4096` for the `[lo..]` slice taken when the cut ends on a page
boundary).  `VirtAddr::floor`, `page_offset` and `VirtPageNum::step` (from
mm/address.rs, not under src/) are modelled from the spec as division,
remainder and successor at page granularity 4096. -/

/-- Embeds the `while start < end` loop of `translated_byte_buffer`:
translate the page of the cursor (`unwrap` panic → `none`), cut at the next
page boundary or at `end`, emit the window, advance the cursor. -/
def tbbGo (m : Machine) (pt : PageTable) (start e : Nat) :
    Option (List (Nat × Nat × Nat)) :=
  if h : start < e then
    match PageTable.translate m pt (start / 4096) with
    | none => none
    | some pte =>
      let end_va := min ((start / 4096 + 1) * 4096) e
      let w := if end_va % 4096 = 0 then (pte_ppn pte, start % 4096, 4096)
               else (pte_ppn pte, start % 4096, end_va % 4096)
      (tbbGo m pt end_va e).map (w :: ·)
  else some []
termination_by e - start
decreasing_by
  simp_wf
  have h1 := Nat.div_add_mod start 4096
  have h2 : start % 4096 < 4096 := Nat.mod_lt _ (by norm_num)
  omega

/-- Embeds `translated_byte_buffer(token, ptr, len)`: reconstructs a view of
the foreign table with `from_token` and runs the cursor loop over
`[ptr, ptr+len)`. -/
def translatedByteBuffer (m : Machine) (token ptr len : Nat) :
    Option (List (Nat × Nat × Nat)) :=
  tbbGo m (fromToken token) ptr (ptr + len)

/-- The returned windows cover `[s, e)` in address order without gaps or
overlaps: each window starts at the cursor's page offset, stays inside one
4096-byte page, is a view of the physical page `translate` names for the
cursor's VPN, and extends to the page end or to the end of the range; the
next window continues exactly where this one stops. -/
def windowSpan (m : Machine) (pt : PageTable) : Nat → Nat → List (Nat × Nat × Nat) → Prop
  | s, e, [] => e ≤ s
  | s, e, w :: ws =>
      s < e ∧
      (∃ pte, PageTable.translate m pt (s / 4096) = some pte ∧ w.1 = pte_ppn pte) ∧
      w.2.1 = s % 4096 ∧
      w.2.1 < w.2.2 ∧ w.2.2 ≤ 4096 ∧
      (w.2.2 = 4096 ∨ s + (w.2.2 - w.2.1) = e) ∧
      windowSpan m pt (s + (w.2.2 - w.2.1)) e ws

/-- Fuel-indexed workhorse for the buffer lemma: when every touched page
translates, the loop succeeds and its windows span the range with lengths
summing to its size. -/
theorem tbbGo_spec (m : Machine) (pt : PageTable) :
    ∀ n s e, e - s ≤ n →
    (∀ v, s / 4096 ≤ v → v * 4096 < e → PageTable.translate m pt v ≠ none) →
    ∃ ws, tbbGo m pt s e = some ws ∧ windowSpan m pt s e ws ∧
      (ws.map fun w => w.2.2 - w.2.1).sum = e - s := by
  intro n
  induction n with
  | zero =>
    intro s e hn _
    have hse : ¬ s < e := by omega
    refine ⟨[], ?_, ?_, ?_⟩
    · rw [tbbGo]; simp [hse]
    · show e ≤ s; omega
    · simp; omega
  | succ n ih =>
    intro s e hn hm
    by_cases hse : s < e
    · have hv0 : s / 4096 * 4096 ≤ s := Nat.div_mul_le_self s 4096
      have htr : PageTable.translate m pt (s / 4096) ≠ none :=
        hm (s / 4096) le_rfl (by omega)
      obtain ⟨pte, hpte⟩ : ∃ pte, PageTable.translate m pt (s / 4096) = some pte := by
        cases h : PageTable.translate m pt (s / 4096) with
        | none => exact absurd h htr
        | some pte => exact ⟨pte, rfl⟩
      have hmod := Nat.div_add_mod s 4096
      have hlt : s % 4096 < 4096 := Nat.mod_lt _ (by norm_num)
      have hstep : s < (s / 4096 + 1) * 4096 := by omega
      set ev := min ((s / 4096 + 1) * 4096) e with hev
      have hev1 : s < ev := by omega
      have hev2 : ev ≤ e := by omega
      have hdivle : s / 4096 ≤ ev / 4096 := Nat.div_le_div_right (by omega)
      obtain ⟨ws', hgo', hspan', hsum'⟩ := ih ev e (by omega)
        (fun v hv hlt' => hm v (le_trans hdivle hv) hlt')
      have hwlen : (if ev % 4096 = 0 then (pte_ppn pte, s % 4096, 4096)
          else (pte_ppn pte, s % 4096, ev % 4096)).2.2 -
          (if ev % 4096 = 0 then (pte_ppn pte, s % 4096, 4096)
          else (pte_ppn pte, s % 4096, ev % 4096)).2.1 = ev - s := by
        by_cases h0 : ev % 4096 = 0
        · simp only [h0, if_true]
          have : ev = (s / 4096 + 1) * 4096 ∨ ev = e := by omega
          have hub : ev ≤ (s / 4096 + 1) * 4096 := by omega
          have hev0 : ev = (s / 4096 + 1) * 4096 := by
            rcases this with h | h
            · exact h
            · have := Nat.div_add_mod ev 4096
              omega
          omega
        · simp only [h0, if_false]
          have hub : ev ≤ (s / 4096 + 1) * 4096 := by omega
          have := Nat.div_add_mod ev 4096
          have hdiv_ev : ev / 4096 = s / 4096 := by
            have h1 : s / 4096 ≤ ev / 4096 := hdivle
            have h2 : ev / 4096 ≤ s / 4096 := by
              have : ev ≠ (s / 4096 + 1) * 4096 := by
                intro hc
                rw [hc] at h0
                simp [Nat.mul_mod_left] at h0
              have hlt2 : ev < (s / 4096 + 1) * 4096 := by omega
              have := Nat.div_le_div_right (c := 4096) (Nat.le_of_lt_succ
                (by omega : ev < (s / 4096 + 1) * 4096))
              calc ev / 4096 ≤ ((s / 4096 + 1) * 4096 - 1) / 4096 :=
                    Nat.div_le_div_right (by omega)
                _ = s / 4096 := by
                    rw [Nat.mul_comm]
                    omega
            omega
          omega
      refine ⟨(if ev % 4096 = 0 then (pte_ppn pte, s % 4096, 4096)
          else (pte_ppn pte, s % 4096, ev % 4096)) :: ws', ?_, ?_, ?_⟩
      · rw [tbbGo]
        rw [dif_pos hse, hpte]
        simp only [← hev, hgo', Option.map_some]
        rfl
      · refine ⟨hse, ⟨pte, hpte, ?_⟩, ?_, ?_, ?_, ?_, ?_⟩
        · by_cases h0 : ev % 4096 = 0 <;> simp [h0]
        · by_cases h0 : ev % 4096 = 0 <;> simp [h0]
        · by_cases h0 : ev % 4096 = 0 <;> simp [h0] <;> omega
        · by_cases h0 : ev % 4096 = 0 <;> simp [h0]
          have := Nat.mod_lt ev (show 0 < 4096 by norm_num)
          omega
        · by_cases h0 : ev % 4096 = 0
          · simp [h0]
          · right
            rw [hwlen]
            have : ev ≠ (s / 4096 + 1) * 4096 := by
              intro hc
              rw [hc] at h0
              simp [Nat.mul_mod_left] at h0
            omega
        · rw [hwlen]
          have : s + (ev - s) = ev := by omega
          rw [this]
          exact hspan'
      · simp only [List.map_cons, List.sum_cons, hwlen, hsum']
        omega
    · refine ⟨[], ?_, ?_, ?_⟩
      · rw [tbbGo]; simp [hse]
      · show e ≤ s; omega
      · simp; omega

/-- A successful loop run implies every touched page translates: the loop
visits the pages of `[s, e)` in order and returns `none` as soon as one walk
fails, so a `some` result certifies every visited page's directory path. -/
theorem tbbGo_touched_some (m : Machine) (pt : PageTable) :
    ∀ n s e, e - s ≤ n → s < e →
      ∀ ws, tbbGo m pt s e = some ws →
      ∀ v, s / 4096 ≤ v → v * 4096 < e → PageTable.translate m pt v ≠ none := by
  intro n
  induction n with
  | zero =>
    intro s e hn hse
    exact absurd hse (by omega)
  | succ n ih =>
    intro s e hn hse ws hgo v hv1 hv2
    rw [tbbGo] at hgo
    rw [dif_pos hse] at hgo
    cases htr : PageTable.translate m pt (s / 4096) with
    | none => rw [htr] at hgo; simp at hgo
    | some pte =>
      simp only [htr] at hgo
      rw [Option.map_eq_some'] at hgo
      obtain ⟨ws', hgo', -⟩ := hgo
      by_cases hveq : v = s / 4096
      · rw [hveq, htr]
        simp
      · have hmod := Nat.div_add_mod s 4096
        have hlt : s % 4096 < 4096 := Nat.mod_lt _ (by norm_num)
        have hvgt : s / 4096 + 1 ≤ v := by omega
        have hb : (s / 4096 + 1) * 4096 ≤ v * 4096 := Nat.mul_le_mul_right _ hvgt
        have hbe : (s / 4096 + 1) * 4096 < e := by omega
        have hev : min ((s / 4096 + 1) * 4096) e = (s / 4096 + 1) * 4096 := by omega
        rw [hev] at hgo'
        have hdiv : (s / 4096 + 1) * 4096 / 4096 = s / 4096 + 1 :=
          Nat.mul_div_cancel _ (by norm_num)
        exact ih ((s / 4096 + 1) * 4096) e (by omega) hbe ws' hgo' v
          (by rw [hdiv]; omega) hv2

/-- C3 (amended): whenever every page touched by `[ptr, ptr+len)` is
reachable through the foreign table (its directory path exists),
`translated_byte_buffer` returns an ordered sequence of non-overlapping byte
windows, none crossing a 4096-byte page boundary, whose lengths sum exactly
to `len` and which cover the range in address order; and conversely, when a
directory level on some touched page's path is absent (its `translate` is
`none`) the call is fatal (`unwrap` panic, modelled by `none`, not an error
return) — whereas an unmapped page whose leaf slot exists but is invalid is
not detected. -/
theorem translated_byte_buffer_spec (m : Machine) (token ptr len : Nat) :
    ((∀ v, ptr / 4096 ≤ v → v * 4096 < ptr + len →
        PageTable.translate m (fromToken token) v ≠ none) →
      ∃ ws, translatedByteBuffer m token ptr len = some ws ∧
        windowSpan m (fromToken token) ptr (ptr + len) ws ∧
        (ws.map fun w => w.2.2 - w.2.1).sum = len) ∧
    (0 < len →
      (∃ v, ptr / 4096 ≤ v ∧ v * 4096 < ptr + len ∧
        PageTable.translate m (fromToken token) v = none) →
      translatedByteBuffer m token ptr len = none) := by
  constructor
  · intro hm
    obtain ⟨ws, h1, h2, h3⟩ := tbbGo_spec m (fromToken token) (ptr + len) ptr (ptr + len)
      (by omega) hm
    exact ⟨ws, h1, h2, by rw [h3]; omega⟩
  · intro hlen ⟨v, hv1, hv2, hvnone⟩
    cases hres : translatedByteBuffer m token ptr len with
    | none => rfl
    | some ws =>
      exfalso
      unfold translatedByteBuffer at hres
      exact tbbGo_touched_some m (fromToken token) (ptr + len) ptr (ptr + len)
        (by omega) (by omega) ws hres v hv1 hv2 hvnone

/-- Witness for `translated_byte_buffer_spec`, both directions: a machine
whose directories map VPN 5 (root frame 0 → frame 1 → leaf frame 2), reading
4 bytes at address 5·4096; and a machine with an all-invalid root directory,
where the same read is fatal. -/
theorem translated_byte_buffer_spec_witness :
    (∃ ws, translatedByteBuffer
        ⟨fun q j => if q = 0 ∧ j = 0 then 1025 else if q = 1 ∧ j = 0 then 2049 else 0, 3⟩
        (8 <<< 60) 20480 4 = some ws ∧
      windowSpan
        ⟨fun q j => if q = 0 ∧ j = 0 then 1025 else if q = 1 ∧ j = 0 then 2049 else 0, 3⟩
        (fromToken (8 <<< 60)) 20480 (20480 + 4) ws ∧
      (ws.map fun w => w.2.2 - w.2.1).sum = 4) ∧
    translatedByteBuffer ⟨fun _ _ => 0, 1⟩ (8 <<< 60) 20480 4 = none :=
  ⟨(translated_byte_buffer_spec
      ⟨fun q j => if q = 0 ∧ j = 0 then 1025 else if q = 1 ∧ j = 0 then 2049 else 0, 3⟩
      (8 <<< 60) 20480 4).1
    (fun v h1 h2 => by
      have hv : v = 5 := by omega
      subst hv
      decide),
   (translated_byte_buffer_spec ⟨fun _ _ => 0, 1⟩ (8 <<< 60) 20480 4).2
    (by norm_num)
    ⟨5, by norm_num, by norm_num, by decide⟩⟩

/-- Counterexample to C3 as stated: VPN 5's leaf slot exists but is invalid
(the page is unmapped), yet `translated_byte_buffer` over it is not fatal: it
returns a window into the bogus physical page the invalid entry decodes to
(page 0), because the `unwrap` only fires when a directory level is absent. -/
theorem translated_byte_buffer_counterexample :
    leafValid
      ⟨fun q j => if q = 0 ∧ j = 0 then 1025 else if q = 1 ∧ j = 0 then 2049 else 0, 3⟩
      (fromToken (8 <<< 60)) 5 = false ∧
    translatedByteBuffer
      ⟨fun q j => if q = 0 ∧ j = 0 then 1025 else if q = 1 ∧ j = 0 then 2049 else 0, 3⟩
      (8 <<< 60) 20480 4 = some [(0, 0, 4)] := by
  constructor
  · decide
  · have htr : PageTable.translate
        ⟨fun q j => if q = 0 ∧ j = 0 then 1025 else if q = 1 ∧ j = 0 then 2049 else 0, 3⟩
        (fromToken (8 <<< 60)) (20480 / 4096) = some 0 := by decide
    simp only [translatedByteBuffer]
    rw [tbbGo]
    simp only [htr]
    norm_num
    rw [tbbGo]
    norm_num
    decide

/-! ## Task scheduler (src/os/src/task/mod.rs, src/os/src/task/task.rs,
src/os/src/syscall/process.rs)

`TaskControlBlock` keeps the fields the claims are about: status, start
timestamp, syscall histogram and heap pointers.  The saved register context
(`task_cx`), the owned address space (`memory_set`), `trap_cx_ppn` and
`base_size` are opaque context-switch/address-space plumbing and are omitted;
where `memory_set` results matter (`sbrk`), they are abstracted by explicit
outcome parameters.  The microsecond clock behind `kernel_get_time`
(timer.rs, outside src/) enters as an explicit `now`/`current_time` argument:
each scheduler call that samples the clock takes the freshly sampled value. -/

/-- Embeds `TimeVal` (syscall/process.rs): seconds plus microseconds. -/
structure TimeVal where
  sec : Nat
  usec : Nat
deriving DecidableEq

/-- Embeds `impl Sub for TimeVal` (syscall/process.rs lines 35-46): each
operand is converted to whole milliseconds by floor division first, then the
two millisecond values are subtracted (`usize` subtraction; the Nat
truncation at zero stands in for the underflow that the Rust subtraction
would not survive). -/
def timeValSub (a b : TimeVal) : Nat :=
  (a.sec * 1000000 + a.usec) / 1000 - (b.sec * 1000000 + b.usec) / 1000

/-- Embeds `TaskStatus` (task/task.rs lines 122-135). -/
inductive TaskStatus where
  | UnInit
  | Ready
  | Running
  | Exited
  | Init
deriving DecidableEq

/-- Embeds the claim-relevant fields of `TaskControlBlock` (task/task.rs). -/
structure TaskControlBlock where
  task_status : TaskStatus
  start_up_time : TimeVal
  syscall_cnt : List Nat
  heap_bottom : Nat
  program_brk : Nat
deriving DecidableEq

/-- Placeholder TCB for out-of-range list reads (never reached when indices
are in range, as `current_task` always is in the kernel). -/
def dummyTCB : TaskControlBlock := ⟨.UnInit, ⟨0, 0⟩, [], 0, 0⟩

/-- Embeds `TaskManagerInner`: the task list and the current index
(`num_app` always equals the list length). -/
structure TaskManagerInner where
  tasks : List TaskControlBlock
  current_task : Nat
deriving DecidableEq

/-- Status of task `i`. -/
def statusAt (s : TaskManagerInner) (i : Nat) : TaskStatus :=
  (s.tasks.getD i dummyTCB).task_status

/-- In-place update of one TCB, as the Rust `inner.tasks[i]` assignments do. -/
def modifyTask (s : TaskManagerInner) (i : Nat)
    (f : TaskControlBlock → TaskControlBlock) : TaskManagerInner :=
  { s with tasks := s.tasks.set i (f (s.tasks.getD i dummyTCB)) }

/-- Embeds `run_first_task` (mod.rs lines 80-99) up to the context switch:
stamps task 0's start time with the freshly sampled clock value, then marks
it Running; `current_task` stays at its initial 0. -/
def runFirstTask (now : TimeVal) (s : TaskManagerInner) : TaskManagerInner :=
  modifyTask s 0 fun t => { t with start_up_time := now, task_status := .Running }

/-- Embeds `mark_current_suspended` (mod.rs lines 102-106). -/
def markCurrentSuspended (s : TaskManagerInner) : TaskManagerInner :=
  modifyTask s s.current_task fun t => { t with task_status := .Ready }

/-- Embeds `mark_current_exited` (mod.rs lines 109-113). -/
def markCurrentExited (s : TaskManagerInner) : TaskManagerInner :=
  modifyTask s s.current_task fun t => { t with task_status := .Exited }

/-- The predicate `find_next_task` selects by: status Ready or Init. -/
def schedulable (st : TaskStatus) : Bool :=
  st = TaskStatus.Ready || st = TaskStatus.Init

/-- Embeds `find_next_task` (mod.rs lines 118-128): scan
`current+1 .. current+num_app+1`, reduce modulo `num_app`, take the first
schedulable index together with its status. -/
def findNextTask (s : TaskManagerInner) : Option (Nat × TaskStatus) :=
  (((List.range' (s.current_task + 1) s.tasks.length).map
      fun id => id % s.tasks.length).find?
    fun id => schedulable (statusAt s id)).map
    fun id => (id, statusAt s id)

/-- Embeds `run_next_task` (mod.rs lines 151-175) up to the context switch.
When no candidate exists the kernel panics ("All applications completed!"),
modelled by `none`.  Faithful to the source's lines 156-161: when the found
task's status is Init, the fresh clock sample is written to
`tasks[current].start_up_time` — the task being switched away from — not to
the selected next task. -/
def runNextTask (now : TimeVal) (s : TaskManagerInner) : Option TaskManagerInner :=
  match findNextTask s with
  | some (next, status) =>
    let s1 := if status = TaskStatus.Init
      then modifyTask s s.current_task fun t => { t with start_up_time := now }
      else s
    let s2 := modifyTask s1 next fun t => { t with task_status := .Running }
    some { s2 with current_task := next }
  | none => none

/-- Embeds `suspend_current_and_run_next` (mod.rs lines 305-308). -/
def suspendCurrentAndRunNext (now : TimeVal) (s : TaskManagerInner) :
    Option TaskManagerInner :=
  runNextTask now (markCurrentSuspended s)

/-- Embeds `exit_current_and_run_next` (mod.rs lines 311-314). -/
def exitCurrentAndRunNext (now : TimeVal) (s : TaskManagerInner) :
    Option TaskManagerInner :=
  runNextTask now (markCurrentExited s)

/-- Embeds `TaskInfo` (syscall/process.rs lines 51-58). -/
structure TaskInfo where
  status : TaskStatus
  syscall_times : List Nat
  time : Nat
deriving DecidableEq

/-- Embeds `get_task_info` (mod.rs lines 188-202): captures the current
task's status, a copy of its histogram, and `current_time - start_up_time`
through `TimeVal`'s subtraction; `current_time` is the fresh clock sample
taken inside the call. -/
def getTaskInfo (s : TaskManagerInner) (current_time : TimeVal) : TaskInfo :=
  let t := s.tasks.getD s.current_task dummyTCB
  ⟨t.task_status, t.syscall_cnt, timeValSub current_time t.start_up_time⟩

/-! ## C1: run_next_task stamps the wrong task's start time -/

/-- C1 evaluated at the failing input: two tasks, task 0 Running (current),
task 1 Init.  `run_next_task` selects task 1, whose status is Init — its
first-ever dispatch — yet the fresh timestamp ⟨1,2⟩ lands in task 0's
`start_up_time` while task 1's stays at its default ⟨0,0⟩ even as it is set
Running and made current. -/
theorem run_next_task_misstamps :
    runNextTask ⟨1, 2⟩
        ⟨[⟨.Running, ⟨0, 0⟩, [], 0, 0⟩, ⟨.Init, ⟨0, 0⟩, [], 0, 0⟩], 0⟩ =
      some ⟨[⟨.Running, ⟨1, 2⟩, [], 0, 0⟩, ⟨.Running, ⟨0, 0⟩, [], 0, 0⟩], 1⟩ := by
  decide

/-! ## C5: elapsed time in get_task_info -/

/-- One `TimeVal` operand converted to whole milliseconds by floor division —
the conversion `impl Sub for TimeVal` applies to each operand. -/
def toMs (t : TimeVal) : Nat := (t.sec * 1000000 + t.usec) / 1000

/-- Written from the spec's words for comparison: "current time minus stored
start time, in whole milliseconds, floor division" — subtract the microsecond
timestamps first, then floor-divide the difference into milliseconds. -/
def specElapsedMs (cur start : TimeVal) : Nat :=
  ((cur.sec * 1000000 + cur.usec) - (start.sec * 1000000 + start.usec)) / 1000

/-- C5 (amended): `get_task_info` returns the current status and a copy of
the histogram together with an elapsed time computed by converting each
timestamp — the freshly sampled current time and the stored start time — to
whole milliseconds by floor division first and then subtracting; this differs
from the floor of the microsecond difference by at most one millisecond. -/
theorem get_task_info_spec (s : TaskManagerInner) (cur : TimeVal) :
    getTaskInfo s cur =
      ⟨(s.tasks.getD s.current_task dummyTCB).task_status,
       (s.tasks.getD s.current_task dummyTCB).syscall_cnt,
       toMs cur - toMs (s.tasks.getD s.current_task dummyTCB).start_up_time⟩ ∧
    specElapsedMs cur (s.tasks.getD s.current_task dummyTCB).start_up_time ≤
      toMs cur - toMs (s.tasks.getD s.current_task dummyTCB).start_up_time ∧
    toMs cur - toMs (s.tasks.getD s.current_task dummyTCB).start_up_time ≤
      specElapsedMs cur (s.tasks.getD s.current_task dummyTCB).start_up_time + 1 := by
  refine ⟨rfl, ?_, ?_⟩ <;>
    · unfold specElapsedMs toMs
      omega

/-- Counterexample to C5 as stated: start at 600 µs, current at 1500 µs.  The
difference is 900 µs, i.e. 0 whole milliseconds, but the code reports
1500/1000 - 600/1000 = 1. -/
theorem get_task_info_counterexample :
    (getTaskInfo ⟨[⟨.Running, ⟨0, 600⟩, [], 0, 0⟩], 0⟩ ⟨0, 1500⟩).time = 1 ∧
    specElapsedMs ⟨0, 1500⟩ ⟨0, 600⟩ = 0 ∧
    (getTaskInfo ⟨[⟨.Running, ⟨0, 600⟩, [], 0, 0⟩], 0⟩ ⟨0, 1500⟩).time ≠
      specElapsedMs ⟨0, 1500⟩ ⟨0, 600⟩ := by
  decide

/-! ## C6: sys_sbrk (task/task.rs lines 96-115, syscall/process.rs lines 176-183) -/

/-- Embeds `TaskControlBlock::change_program_brk`.  The address-space remap
(`memory_set.shrink_to` for negative deltas, `memory_set.append_to`
otherwise; mm/memory_set.rs is outside src/) is abstracted by the two outcome
parameters `shrink_ok`/`append_ok` standing for the Boolean those calls
return. -/
def changeProgramBrk (t : TaskControlBlock) (size : Int) (shrink_ok append_ok : Bool) :
    Option Nat × TaskControlBlock :=
  let new_brk : Int := (t.program_brk : Int) + size
  if new_brk < (t.heap_bottom : Int) then (none, t)
  else if (if size < 0 then shrink_ok else append_ok)
    then (some t.program_brk, { t with program_brk := new_brk.toNat })
    else (none, t)

/-- Embeds `sys_sbrk`: old break as a signed word on success, -1 on failure. -/
def sys_sbrk (t : TaskControlBlock) (size : Int) (shrink_ok append_ok : Bool) :
    Int × TaskControlBlock :=
  match changeProgramBrk t size shrink_ok append_ok with
  | (some old, t') => ((old : Int), t')
  | (none, t') => (-1, t')

/-- C6: `sys_sbrk(delta)` returns the old break and moves `program_brk` by
`delta` exactly when the new break stays at or above `heap_bottom` and the
underlying remap succeeds; when the new break would fall strictly below
`heap_bottom`, or the remap fails, it returns -1 and `program_brk` (indeed
the whole TCB) is unchanged. -/
theorem sys_sbrk_spec (t : TaskControlBlock) (size : Int) (shrink_ok append_ok : Bool) :
    ((t.program_brk : Int) + size < (t.heap_bottom : Int) ∨
        (if size < 0 then shrink_ok else append_ok) = false →
      sys_sbrk t size shrink_ok append_ok = (-1, t)) ∧
    (¬ (t.program_brk : Int) + size < (t.heap_bottom : Int) →
        (if size < 0 then shrink_ok else append_ok) = true →
      sys_sbrk t size shrink_ok append_ok = ((t.program_brk : Int),
        { t with program_brk := ((t.program_brk : Int) + size).toNat })) := by
  constructor
  · intro h
    unfold sys_sbrk changeProgramBrk
    rcases h with h | h
    · simp [h]
    · by_cases hlt : (t.program_brk : Int) + size < (t.heap_bottom : Int)
      · simp [hlt]
      · simp [hlt, h]
  · intro h1 h2
    unfold sys_sbrk changeProgramBrk
    simp [h1, h2]

/-- Witness for `sys_sbrk_spec`: heap bottom and break both at 100;
`sbrk(-101)` underflows the heap bottom and fails with the TCB unchanged,
`sbrk(+4096)` succeeds, returns the old break 100 and moves the break. -/
theorem sys_sbrk_spec_witness :
    sys_sbrk ⟨.Running, ⟨0, 0⟩, [], 100, 100⟩ (-101) true true =
      (-1, ⟨.Running, ⟨0, 0⟩, [], 100, 100⟩) ∧
    sys_sbrk ⟨.Running, ⟨0, 0⟩, [], 100, 100⟩ 4096 true true =
      (100, ⟨.Running, ⟨0, 0⟩, [], 100, 4196⟩) := by
  constructor
  · exact (sys_sbrk_spec ⟨.Running, ⟨0, 0⟩, [], 100, 100⟩ (-101) true true).1
      (Or.inl (by norm_num))
  · have h := (sys_sbrk_spec ⟨.Running, ⟨0, 0⟩, [], 100, 100⟩ 4096 true true).2
      (by norm_num) (by norm_num)
    simpa using h

/-! ## C4: round-robin selection in find_next_task -/

/-- A successful `find?` returns the first list element satisfying the
predicate: some position holds the result and every earlier position fails
the predicate. -/
theorem find_first_index {α : Type} (p : α → Bool) :
    ∀ (l : List α) (x : α), l.find? p = some x →
      ∃ k, ∃ hk : k < l.length, l.get ⟨k, hk⟩ = x ∧ p x = true ∧
        ∀ j, (hj : j < l.length) → j < k → p (l.get ⟨j, hj⟩) = false := by
  intro l
  induction l with
  | nil => intro x h; simp at h
  | cons a t ih =>
    intro x h
    cases hpa : p a with
    | true =>
      rw [List.find?_cons_of_pos _ hpa] at h
      obtain rfl : a = x := by injection h
      exact ⟨0, by simp, rfl, hpa, fun j hj hlt => absurd hlt (by omega)⟩
    | false =>
      rw [List.find?_cons_of_neg _ (by simp [hpa])] at h
      obtain ⟨k, hk, hget, hpx, hfirst⟩ := ih x h
      refine ⟨k + 1, by simp; omega, by simpa using hget, hpx, ?_⟩
      intro j hj hlt
      cases j with
      | zero => simpa using hpa
      | succ j =>
        have hj' : j < t.length := by simp at hj; omega
        simpa using hfirst j hj' (by omega)

/-- C4: `find_next_task` scans indices in circular order starting at
`current_task + 1`, wrapping modulo the task count, and returns the first
index whose status is Ready or Init, together with that status; the tie-break
is purely positional.  When no task is Ready or Init it returns nothing and
`run_next_task` is fatal (the "All applications completed!" panic, modelled
by `none`) for every clock sample. -/
theorem find_next_task_spec (s : TaskManagerInner) :
    (∀ i st, findNextTask s = some (i, st) →
      ∃ k, k < s.tasks.length ∧ i = (s.current_task + 1 + k) % s.tasks.length ∧
        schedulable (statusAt s i) = true ∧ st = statusAt s i ∧
        ∀ j, j < k →
          schedulable (statusAt s ((s.current_task + 1 + j) % s.tasks.length)) = false) ∧
    ((∀ i, i < s.tasks.length → schedulable (statusAt s i) = false) →
      findNextTask s = none ∧ ∀ now, runNextTask now s = none) := by
  constructor
  · intro i st h
    unfold findNextTask at h
    cases hf : ((List.range' (s.current_task + 1) s.tasks.length).map
        fun id => id % s.tasks.length).find? (fun id => schedulable (statusAt s id)) with
    | none => rw [hf] at h; simp at h
    | some id =>
      rw [hf] at h
      have hid : id = i ∧ statusAt s id = st := by
        have := h
        simp only [Option.map_some', Option.some.injEq, Prod.mk.injEq] at this
        exact this
      obtain ⟨rfl, rfl⟩ := hid
      obtain ⟨k, hk, hget, hpx, hfirst⟩ := find_first_index _ _ _ hf
      have hlen : ((List.range' (s.current_task + 1) s.tasks.length).map
          fun id => id % s.tasks.length).length = s.tasks.length := by
        simp
      have hkl : k < s.tasks.length := by rw [hlen] at hk; exact hk
      have hval : ∀ j (hj : j < s.tasks.length),
          ((List.range' (s.current_task + 1) s.tasks.length).map
            fun id => id % s.tasks.length).get ⟨j, by rw [hlen]; exact hj⟩ =
            (s.current_task + 1 + j) % s.tasks.length := by
        intro j hj
        simp [List.getElem_range']
      refine ⟨k, hkl, ?_, hpx, rfl, ?_⟩
      · rw [← hval k hkl]
        exact hget.symm
      · intro j hjk
        have hj : j < s.tasks.length := by omega
        have := hfirst j (by rw [hlen]; exact hj) hjk
        rwa [hval j hj] at this
  · intro hall
    have hnone : ((List.range' (s.current_task + 1) s.tasks.length).map
        fun id => id % s.tasks.length).find? (fun id => schedulable (statusAt s id)) =
          none := by
      rw [List.find?_eq_none]
      intro x hx
      simp only [List.mem_map] at hx
      obtain ⟨a, ha, rfl⟩ := hx
      have hn : 0 < s.tasks.length := by
        rw [List.mem_range'_1] at ha
        omega
      have := hall (a % s.tasks.length) (Nat.mod_lt _ hn)
      simp [this]
    have hfind : findNextTask s = none := by
      unfold findNextTask
      rw [hnone]
      rfl
    refine ⟨hfind, fun now => ?_⟩
    unfold runNextTask
    rw [hfind]

/-- Witness for `find_next_task_spec`: tasks (Running, Exited, Ready) with
current 0; the scan visits 1 (Exited, skipped) then 2 (Ready, selected). -/
theorem find_next_task_spec_witness :
    findNextTask ⟨[⟨.Running, ⟨0, 0⟩, [], 0, 0⟩, ⟨.Exited, ⟨0, 0⟩, [], 0, 0⟩,
        ⟨.Ready, ⟨0, 0⟩, [], 0, 0⟩], 0⟩ = some (2, .Ready) ∧
    ∃ k, k < 3 ∧ 2 = (0 + 1 + k) % 3 ∧
      schedulable (statusAt ⟨[⟨.Running, ⟨0, 0⟩, [], 0, 0⟩, ⟨.Exited, ⟨0, 0⟩, [], 0, 0⟩,
        ⟨.Ready, ⟨0, 0⟩, [], 0, 0⟩], 0⟩ 2) = true ∧
      TaskStatus.Ready = statusAt ⟨[⟨.Running, ⟨0, 0⟩, [], 0, 0⟩,
        ⟨.Exited, ⟨0, 0⟩, [], 0, 0⟩, ⟨.Ready, ⟨0, 0⟩, [], 0, 0⟩], 0⟩ 2 ∧
      ∀ j, j < k → schedulable (statusAt ⟨[⟨.Running, ⟨0, 0⟩, [], 0, 0⟩,
        ⟨.Exited, ⟨0, 0⟩, [], 0, 0⟩, ⟨.Ready, ⟨0, 0⟩, [], 0, 0⟩], 0⟩
          ((0 + 1 + j) % 3)) = false :=
  ⟨by decide,
    (find_next_task_spec ⟨[⟨.Running, ⟨0, 0⟩, [], 0, 0⟩, ⟨.Exited, ⟨0, 0⟩, [], 0, 0⟩,
      ⟨.Ready, ⟨0, 0⟩, [], 0, 0⟩], 0⟩).1 2 .Ready (by decide)⟩

/-! ## C8: at most one Running task -/

/-- Executions in the claim: a run of `suspend_current_and_run_next` /
`exit_current_and_run_next` calls, each carrying the clock sample its inner
`run_next_task` would take. -/
inductive SchedOp where
  | suspendOp (now : TimeVal)
  | exitOp (now : TimeVal)

/-- One scheduler operation. -/
def applyOp (op : SchedOp) (s : TaskManagerInner) : Option TaskManagerInner :=
  match op with
  | .suspendOp now => suspendCurrentAndRunNext now s
  | .exitOp now => exitCurrentAndRunNext now s

/-- A finite sequence of scheduler operations; `none` as soon as one panics. -/
def runSched : List SchedOp → TaskManagerInner → Option TaskManagerInner
  | [], s => some s
  | op :: ops, s => (applyOp op s).bind (runSched ops)

/-- Scheduler invariant: any Running task is the current one. -/
def Inv (s : TaskManagerInner) : Prop :=
  ∀ i, i < s.tasks.length → statusAt s i = .Running → i = s.current_task

/-- Reading an updated list at any position. -/
theorem getD_list_set {α : Type} (l : List α) (i j : Nat) (a d : α) :
    (l.set i a).getD j d = if i = j ∧ i < l.length then a else l.getD j d := by
  induction l generalizing i j with
  | nil => simp
  | cons b t ih =>
    cases i with
    | zero =>
      cases j with
      | zero => simp
      | succ j => simp
    | succ i =>
      cases j with
      | zero => simp
      | succ j =>
        simp only [List.set_cons_succ, List.getD_cons_succ, ih, List.length_cons]
        by_cases hc : i = j ∧ i < t.length
        · rw [if_pos hc, if_pos (by omega)]
        · rw [if_neg hc, if_neg (by omega)]

/-- Status readback through `modifyTask`. -/
theorem statusAt_modifyTask (s : TaskManagerInner) (i j : Nat)
    (f : TaskControlBlock → TaskControlBlock) :
    statusAt (modifyTask s i f) j =
      if i = j ∧ i < s.tasks.length then (f (s.tasks.getD i dummyTCB)).task_status
      else statusAt s j := by
  unfold statusAt modifyTask
  simp only []
  rw [getD_list_set]
  split <;> rfl

/-- `modifyTask` keeps the task count. -/
theorem length_modifyTask (s : TaskManagerInner) (i : Nat)
    (f : TaskControlBlock → TaskControlBlock) :
    (modifyTask s i f).tasks.length = s.tasks.length := by
  simp [modifyTask]

/-- After marking the current task with any non-Running status, no task is
Running (given the invariant). -/
theorem mark_no_running (s : TaskManagerInner) (hInv : Inv s)
    (f : TaskControlBlock → TaskControlBlock)
    (hf : ∀ t, (f t).task_status ≠ .Running) :
    ∀ i, i < (modifyTask s s.current_task f).tasks.length →
      statusAt (modifyTask s s.current_task f) i ≠ .Running := by
  intro i hi
  rw [length_modifyTask] at hi
  rw [statusAt_modifyTask]
  split
  · exact hf _
  · rename_i h
    intro hR
    have hcur := hInv i hi hR
    exact h ⟨hcur.symm, hcur ▸ hi⟩

/-- A successful `run_next_task` from a state with no Running task restores
the invariant: the selected task is Running and is the new current task. -/
theorem run_next_inv (s : TaskManagerInner)
    (hnr : ∀ i, i < s.tasks.length → statusAt s i ≠ .Running)
    (now : TimeVal) (s' : TaskManagerInner)
    (h : runNextTask now s = some s') : Inv s' := by
  unfold runNextTask at h
  cases hf : findNextTask s with
  | none => rw [hf] at h; exact absurd h (by simp)
  | some ns =>
    obtain ⟨next, status⟩ := ns
    rw [hf] at h
    simp only [Option.some.injEq] at h
    subst h
    have hnext : next < s.tasks.length := by
      unfold findNextTask at hf
      cases hg : ((List.range' (s.current_task + 1) s.tasks.length).map
          fun id => id % s.tasks.length).find?
            (fun id => schedulable (statusAt s id)) with
      | none => rw [hg] at hf; simp at hf
      | some id =>
        rw [hg] at hf
        have hid : id = next := by
          simp only [Option.map_some', Option.some.injEq, Prod.mk.injEq] at hf
          exact hf.1
        subst hid
        have hmem := List.mem_of_find?_eq_some hg
        simp only [List.mem_map] at hmem
        obtain ⟨a, ha, rfl⟩ := hmem
        have hn : 0 < s.tasks.length := by
          rw [List.mem_range'_1] at ha
          omega
        exact Nat.mod_lt _ hn
    intro i hi hR
    simp only [] at hR hi ⊢
    set s1 := if status = TaskStatus.Init
      then modifyTask s s.current_task fun t => { t with start_up_time := now }
      else s with hs1
    have hlen1 : s1.tasks.length = s.tasks.length := by
      rw [hs1]
      split
      · exact length_modifyTask _ _ _
      · rfl
    have hstat1 : ∀ j, statusAt s1 j = statusAt s j := by
      intro j
      rw [hs1]
      split
      · rw [statusAt_modifyTask]
        split
        · rename_i hc
          unfold statusAt
          rw [hc.1]
        · rfl
      · rfl
    rw [length_modifyTask, hlen1] at hi
    have hR' : statusAt (modifyTask s1 next fun t =>
        { t with task_status := TaskStatus.Running }) i = TaskStatus.Running := hR
    rw [statusAt_modifyTask] at hR'
    by_cases hin : next = i ∧ next < s1.tasks.length
    · exact hin.1.symm
    · rw [if_neg hin] at hR'
      rw [hstat1] at hR'
      exact absurd hR' (hnr i hi)

/-- The invariant is preserved along any run of scheduler operations. -/
theorem runSched_inv : ∀ (ops : List SchedOp) (s s' : TaskManagerInner),
    Inv s → runSched ops s = some s' → Inv s' := by
  intro ops
  induction ops with
  | nil =>
    intro s s' h heq
    simp only [runSched, Option.some.injEq] at heq
    subst heq
    exact h
  | cons op ops ih =>
    intro s s' h heq
    simp only [runSched] at heq
    cases happ : applyOp op s with
    | none => rw [happ] at heq; simp at heq
    | some s1 =>
      rw [happ] at heq
      simp only [Option.some_bind] at heq
      have h1 : Inv s1 := by
        cases op with
        | suspendOp now =>
          exact run_next_inv _ (mark_no_running s h _ (by intro t; simp)) now s1 happ
        | exitOp now =>
          exact run_next_inv _ (mark_no_running s h _ (by intro t; simp)) now s1 happ
      exact ih s1 s' h1 heq

/-- C8: starting from a list of all-Init tasks (current index 0), optionally
booting with `run_first_task` and then performing any finite sequence of
`suspend_current_and_run_next` / `exit_current_and_run_next` operations, every
reachable observation point has at most one Running task. -/
theorem single_running (tcbs : List TaskControlBlock) (useFirst : Bool) (t0 : TimeVal)
    (ops : List SchedOp) (s : TaskManagerInner)
    (hinit : ∀ i, i < tcbs.length → (tcbs.getD i dummyTCB).task_status = .Init)
    (hrun : runSched ops
      (if useFirst then runFirstTask t0 ⟨tcbs, 0⟩ else ⟨tcbs, 0⟩) = some s) :
    ∀ i j, i < s.tasks.length → j < s.tasks.length →
      statusAt s i = .Running → statusAt s j = .Running → i = j := by
  have hInvA : Inv (⟨tcbs, 0⟩ : TaskManagerInner) := by
    intro i hi hR
    have hR' : (tcbs.getD i dummyTCB).task_status = TaskStatus.Running := hR
    rw [hinit i hi] at hR'
    cases hR'
  have hInvB : Inv (runFirstTask t0 ⟨tcbs, 0⟩) := by
    unfold runFirstTask
    intro i hi hR
    rw [length_modifyTask] at hi
    have hR' : statusAt (modifyTask ⟨tcbs, 0⟩ 0 fun t =>
        { t with start_up_time := t0, task_status := TaskStatus.Running }) i =
          TaskStatus.Running := hR
    rw [statusAt_modifyTask] at hR'
    split at hR'
    · rename_i hc
      exact hc.1.symm
    · exfalso
      have hR2 : (tcbs.getD i dummyTCB).task_status = TaskStatus.Running := hR'
      rw [hinit i hi] at hR2
      cases hR2
  have hInv0 : Inv (if useFirst then runFirstTask t0 ⟨tcbs, 0⟩ else ⟨tcbs, 0⟩) := by
    cases useFirst
    · simpa using hInvA
    · simpa using hInvB
  have hInvS := runSched_inv ops _ s hInv0 hrun
  intro i j hi hj hri hrj
  rw [hInvS i hi hri, hInvS j hj hrj]

/-- Witness for `single_running`: two Init tasks, boot then one suspend. -/
theorem single_running_witness :
    runSched [SchedOp.suspendOp ⟨0, 5⟩]
        (runFirstTask ⟨0, 1⟩ ⟨[⟨.Init, ⟨0, 0⟩, [], 0, 0⟩, ⟨.Init, ⟨0, 0⟩, [], 0, 0⟩], 0⟩) =
      some ⟨[⟨.Ready, ⟨0, 5⟩, [], 0, 0⟩, ⟨.Running, ⟨0, 0⟩, [], 0, 0⟩], 1⟩ ∧
    ∀ i j, i < (⟨[⟨.Ready, ⟨0, 5⟩, [], 0, 0⟩, ⟨.Running, ⟨0, 0⟩, [], 0, 0⟩], 1⟩ :
        TaskManagerInner).tasks.length →
      j < (⟨[⟨.Ready, ⟨0, 5⟩, [], 0, 0⟩, ⟨.Running, ⟨0, 0⟩, [], 0, 0⟩], 1⟩ :
        TaskManagerInner).tasks.length →
      statusAt ⟨[⟨.Ready, ⟨0, 5⟩, [], 0, 0⟩, ⟨.Running, ⟨0, 0⟩, [], 0, 0⟩], 1⟩ i = .Running →
      statusAt ⟨[⟨.Ready, ⟨0, 5⟩, [], 0, 0⟩, ⟨.Running, ⟨0, 0⟩, [], 0, 0⟩], 1⟩ j = .Running →
      i = j :=
  ⟨by decide,
    single_running [⟨.Init, ⟨0, 0⟩, [], 0, 0⟩, ⟨.Init, ⟨0, 0⟩, [], 0, 0⟩] true ⟨0, 1⟩
      [SchedOp.suspendOp ⟨0, 5⟩]
      ⟨[⟨.Ready, ⟨0, 5⟩, [], 0, 0⟩, ⟨.Running, ⟨0, 0⟩, [], 0, 0⟩], 1⟩
      (by
        intro i hi
        have h2 : i < 2 := by simpa using hi
        interval_cases i <;> rfl)
      (by decide)⟩

end RCore
